import Mathlib

/-!
Verification of the kernel pool-tag sampler (`pool_tag_tracker.py`).

The decoder and the delta engine are embedded shallowly: a raw OS buffer is a
list of byte values, a snapshot is the insertion-ordered association list that
models the Python `tags` dict, and the growth computation mirrors `main`'s
per-round comparison loop, threshold filter and stable descending sort.
`Option` models Python exceptions: `none` is a raised `struct.error`.
-/

namespace PoolTag

/-- The raw bytes `buf.raw[:ret_len.value]`, one list entry per byte value. -/
abbrev Buffer := List Nat

/-- Little-endian unsigned read of `len` bytes at `offset`, as performed by
`struct.unpack_from` with formats `<I` (`len = 4`) and `<Q` (`len = 8`). -/
def readLE (data : Buffer) (offset : Nat) : Nat → Nat
  | 0 => 0
  | n + 1 => data.getD offset 0 + 256 * readLE data (offset + 1) n

/-- One decoded value of the `tags` dict:
`{'paged': pu, 'nonpaged': npu, 'p_out': pa - pf, 'np_out': npa - npf}`
(line 31 of the source).  The byte totals are unsigned reads; the two
outstanding fields are differences of Python ints, hence signed. -/
structure Sample where
  paged : Nat
  nonpaged : Nat
  p_out : Int
  np_out : Int
deriving DecidableEq

/-- The `tags` dict: an insertion-ordered association list. -/
abbrev Snapshot := List (String × Sample)

/-- `k in tags`. -/
def hasKey (tags : Snapshot) (k : String) : Bool :=
  tags.any fun p => p.1 == k

/-- `tags[k] = v`, Python dict assignment: an existing key keeps its position
and receives the new value, a new key is appended at the end. -/
def dictInsert (tags : Snapshot) (k : String) (v : Sample) : Snapshot :=
  if hasKey tags k then tags.map fun p => if p.1 == k then (k, v) else p
  else tags ++ [(k, v)]

/-- `tags.get(k)`: the binding of `k`, if present. -/
def dictGet (tags : Snapshot) (k : String) : Option Sample :=
  (tags.find? fun p => p.1 == k).map Prod.snd

/-- `chr(b) if 32 <= b < 127 else '.'` (line 26). -/
def decodeChar (b : Nat) : Char :=
  if 32 ≤ b ∧ b < 127 then Char.ofNat b else '.'

/-- The tag string of the record at `offset`:
`''.join(chr(b) if 32 <= b < 127 else '.' for b in data[offset:offset+4])`. -/
def decodeTag (data : Buffer) (offset : Nat) : String :=
  String.mk (((data.drop offset).take 4).map decodeChar)

/-- The numeric fields of the record at `offset` (lines 27–31): `pa`/`pf` at
record bytes 4–7 and 8–11, `pu` at 16–23, `npa`/`npf` at 24–27 and 28–31,
`npu` at 32–39, all little-endian. -/
def decodeSample (data : Buffer) (offset : Nat) : Sample :=
  ⟨readLE data (offset + 16) 8,
   readLE data (offset + 32) 8,
   (readLE data (offset + 4) 4 : Int) - readLE data (offset + 8) 4,
   (readLE data (offset + 24) 4 : Int) - readLE data (offset + 28) 4⟩

/-- The decoding loop `for _ in range(count)` with its
`if offset + 40 > len(data): break` guard (lines 23–32). -/
def decodeLoop (data : Buffer) : Nat → Nat → Snapshot → Snapshot
  | 0, _, tags => tags
  | n + 1, offset, tags =>
    if data.length < offset + 40 then tags
    else decodeLoop data n (offset + 40)
      (dictInsert tags (decodeTag data offset) (decodeSample data offset))

/-- Decoding of the buffer body (lines 19–33).  `none` models the
`struct.error` raised by `struct.unpack_from('<I', data, 0)` when fewer than
4 bytes were returned; otherwise the record loop starts at offset 8. -/
def decodeBuffer (data : Buffer) : Option Snapshot :=
  if data.length < 4 then none
  else some (decodeLoop data (readLE data 0 4) 8 [])

/-- `get_pool_tags` as a function of the `NtQuerySystemInformation` status and
the bytes it wrote: a non-zero status returns the empty dict before any
decoding happens (lines 16–17). -/
def get_pool_tags (status : Int) (data : Buffer) : Option Snapshot :=
  if status ≠ 0 then some [] else decodeBuffer data

/-- The tags of the records the decoding loop visits, in visit order. -/
def recordTags (data : Buffer) : Nat → Nat → List String
  | 0, _ => []
  | n + 1, offset =>
    if data.length < offset + 40 then []
    else decodeTag data offset :: recordTags data n (offset + 40)

/-- `min_delta_kb = 100` (line 38). -/
def min_delta_kb : Nat := 100

/-- The default `{'paged': 0, 'nonpaged': 0, 'p_out': 0, 'np_out': 0}`
used for tags absent from the baseline (line 56). -/
def zeroSample : Sample := ⟨0, 0, 0, 0⟩

/-- One `growers` tuple `(tag, d_paged, d_np, d_total, cur_total)` (line 61). -/
structure Grower where
  tag : String
  d_paged : Int
  d_np : Int
  d_total : Int
  total : Nat
deriving DecidableEq

/-- The body of the per-tag comparison (lines 55–61): baseline lookup with
zero default, signed deltas, and the strict threshold test
`d_total > min_delta_kb * 1024`. -/
def growerEntry (baseline : Snapshot) (p : String × Sample) : Option Grower :=
  let base := (dictGet baseline p.1).getD zeroSample
  let d_paged := (p.2.paged : Int) - base.paged
  let d_np := (p.2.nonpaged : Int) - base.nonpaged
  let d_total := d_paged + d_np
  if (min_delta_kb : Int) * 1024 < d_total then
    some ⟨p.1, d_paged, d_np, d_total, p.2.paged + p.2.nonpaged⟩
  else none

/-- Lines 54–61: the unfiltered growers list, in `current` iteration order. -/
def growersUnsorted (baseline current : Snapshot) : List Grower :=
  current.filterMap (growerEntry baseline)

/-- The order of `growers.sort(key=lambda x: x[3], reverse=True)`:
descending by `d_total`. -/
def gge (a b : Grower) : Prop := b.d_total ≤ a.d_total

instance : DecidableRel gge := fun a b => inferInstanceAs (Decidable (b.d_total ≤ a.d_total))

instance : IsTotal Grower gge := ⟨fun a b => le_total b.d_total a.d_total⟩

instance : IsTrans Grower gge := ⟨fun _ _ _ h h₂ => le_trans h₂ h⟩

/-- Line 63: Python `list.sort` is stable, so it is insertion sort by the
descending order `gge`. -/
def computeGrowers (baseline current : Snapshot) : List Grower :=
  (growersUnsorted baseline current).insertionSort gge

/-- Line 86: `rate_kb_per_min = (d_total / 1024) / (samples * interval / 60)`,
with `elapsed_seconds = samples * interval`.  Exact rational arithmetic; the
concrete values checked below are exactly representable as binary floats, so
ℚ agrees with the source's float arithmetic on them. -/
def rate_kb_per_min (d_total : Int) (elapsed_seconds : ℚ) : ℚ :=
  ((d_total : ℚ) / 1024) / (elapsed_seconds / 60)

/-- Line 97: `est_day = rate * 60 * 24 / 1024`. -/
def est_mb_per_day (rate : ℚ) : ℚ :=
  rate * 60 * 24 / 1024

/-- One `suspects` tuple `(tag, d_total, rate_kb_per_min, cur_total)`
(line 87). -/
structure Suspect where
  tag : String
  d_total : Int
  rate : ℚ
  total : Nat
deriving DecidableEq

/-- The order of `suspects.sort(key=lambda x: x[1], reverse=True)` (line 89). -/
def sge (a b : Suspect) : Prop := b.d_total ≤ a.d_total

instance : DecidableRel sge := fun a b => inferInstanceAs (Decidable (b.d_total ≤ a.d_total))

instance : IsTotal Suspect sge := ⟨fun a b => le_total b.d_total a.d_total⟩

instance : IsTrans Suspect sge := ⟨fun _ _ _ h h₂ => le_trans h₂ h⟩

/-- The final summary (lines 80–89): totals compared against the baseline with
a zero default, the same strict threshold, the derived rate, and the stable
descending sort by `d_total`. -/
def finalSuspects (baseline final : Snapshot) (elapsed_seconds : ℚ) : List Suspect :=
  (final.filterMap fun p =>
    let base := (dictGet baseline p.1).getD zeroSample
    let d_total := ((p.2.paged : Int) + p.2.nonpaged) - ((base.paged : Int) + base.nonpaged)
    if (min_delta_kb : Int) * 1024 < d_total then
      some ⟨p.1, d_total, rate_kb_per_min d_total elapsed_seconds, p.2.paged + p.2.nonpaged⟩
    else none).insertionSort sge

/-- The sampling loop (lines 48–74) as a function of the OS response of each
round: every round decodes a snapshot and computes growers against the fixed
baseline.  A `none` from the decoder would abort the whole run (an uncaught
exception), which `Option`'s `mapM` propagates. -/
def runSamples (baseline : Snapshot) (rounds : List (Int × Buffer)) :
    Option (List (List Grower)) :=
  rounds.mapM fun r => (get_pool_tags r.1 r.2).map (computeGrowers baseline)

/-- A header declaring 3 records over a buffer that holds only 2 full records
plus 10 stray bytes: exercises the early-stop guard. -/
def wbufC1 : Buffer :=
  [3, 0, 0, 0, 0, 0, 0, 0] ++ ([65, 65, 65, 65] ++ List.replicate 36 0) ++
    ([66, 66, 66, 66] ++ List.replicate 36 0) ++ List.replicate 10 0

/-- A record whose tag decodes to `"AAAA"` and whose numeric fields are 0. -/
def dupRecord : Buffer := [65, 65, 65, 65] ++ List.replicate 36 0

/-- A well-formed buffer declaring two records that carry the same tag. -/
def dupBuf : Buffer := [2, 0, 0, 0, 0, 0, 0, 0] ++ dupRecord ++ dupRecord

/-- A sample whose total of 200000 bytes exceeds the 102400-byte threshold. -/
def bigSampleC3 : Sample := ⟨200000, 0, 0, 0⟩

/-- Two tags with identical deltas, in reverse-alphabetical insertion order. -/
def tieCurrent : Snapshot := [("BBBB", bigSampleC3), ("AAAA", bigSampleC3)]

/-- A sample whose total of 300000 bytes exceeds the threshold. -/
def bigSampleC4 : Sample := ⟨300000, 0, 0, 0⟩

/-- One record whose tag bytes are `A`, a non-printable byte, a space and
`~`: the printable-range boundaries. -/
def wbufC9 : Buffer := [1, 0, 0, 0, 0, 0, 0, 0] ++ ([65, 127, 32, 126] ++ List.replicate 36 0)

/-- One record tagged `LEAK` with 0 paged allocations and 1 paged free. -/
def negBuf : Buffer :=
  [1, 0, 0, 0, 0, 0, 0, 0] ++
    ([76, 69, 65, 75] ++ [0, 0, 0, 0] ++ [1, 0, 0, 0] ++ List.replicate 28 0)

/-- A sample whose total of 150000 bytes exceeds the threshold. -/
def bigSampleC10 : Sample := ⟨150000, 0, 0, 0⟩

/-- Dict assignment never invents keys: afterwards a key is present iff it was
present before or it is the inserted one. -/
theorem hasKey_dictInsert (tags : Snapshot) (k : String) (v : Sample) (t : String) :
    hasKey (dictInsert tags k v) t = (hasKey tags t || (k == t)) := by
  unfold dictInsert
  split
  · rename_i hk
    have hfun : ((fun p : String × Sample => p.1 == t) ∘
        fun p => if p.1 == k then (k, v) else p) = fun p => p.1 == t := by
      funext p
      by_cases hpk : p.1 = k
      · simp [Function.comp, hpk]
      · simp [Function.comp, hpk]
    unfold hasKey at hk ⊢
    rw [List.any_map, hfun]
    by_cases hkt : k = t
    · subst hkt
      simp [hk]
    · simp [hkt]
  · unfold hasKey
    simp

/-- Every binding after a dict assignment is an old binding or the new one. -/
theorem dictInsert_prop (P : String × Sample → Prop) (tags : Snapshot) (k : String)
    (v : Sample) (htags : ∀ p ∈ tags, P p) (hk : P (k, v)) :
    ∀ p ∈ dictInsert tags k v, P p := by
  unfold dictInsert
  split
  · intro p hp
    rw [List.mem_map] at hp
    obtain ⟨q, hq, rfl⟩ := hp
    by_cases hqk : q.1 = k
    · simpa [hqk] using hk
    · simpa [hqk] using htags q hq
  · intro p hp
    rw [List.mem_append] at hp
    rcases hp with hp | hp
    · exact htags p hp
    · rw [List.mem_singleton] at hp
      subst hp
      exact hk

/-- Invariant preservation through the decoding loop: a property that holds of
every in-bounds decoded record and of the accumulator holds of the result. -/
theorem decodeLoop_prop (data : Buffer) (P : String × Sample → Prop)
    (hrec : ∀ offset, offset + 40 ≤ data.length →
      P (decodeTag data offset, decodeSample data offset)) :
    ∀ (n offset : Nat) (tags : Snapshot), (∀ p ∈ tags, P p) →
      ∀ p ∈ decodeLoop data n offset tags, P p := by
  intro n
  induction n with
  | zero =>
    intro offset tags htags
    simpa [decodeLoop] using htags
  | succ n ih =>
    intro offset tags htags
    rw [decodeLoop]
    split
    · exact htags
    · rename_i hlen
      exact ih (offset + 40) _
        (dictInsert_prop P tags _ _ htags (hrec offset (by omega)))

/-- An in-bounds 4-byte slice, element by element. -/
theorem drop_take_four : ∀ (data : Buffer) (offset : Nat), offset + 4 ≤ data.length →
    (data.drop offset).take 4 = [data.getD offset 0, data.getD (offset + 1) 0,
      data.getD (offset + 2) 0, data.getD (offset + 3) 0]
  | [], offset, h => by simp at h
  | a :: t, 0, h => by
    match t, h with
    | b :: c :: d :: t', _ => simp [List.getD]
    | [], h => simp at h
    | [b], h => simp at h
    | [b, c], h => simp at h
  | a :: t, offset + 1, h => by
    have ih := drop_take_four t offset (by simp at h; omega)
    simpa [List.getD_cons_succ] using ih

/-- `Char.ofNat` is faithful on codepoints below the surrogate range. -/
theorem toNat_char_ofNat {b : Nat} (h : b < 55296) : (Char.ofNat b).toNat = b := by
  have hv : b.isValidChar := Or.inl h
  simp [Char.ofNat, hv, Char.ofNatAux, Char.toNat, UInt32.toNat]

/-- Every character produced by the tag mapping is printable ASCII or a dot. -/
theorem decodeChar_shape (b : Nat) :
    (32 ≤ (decodeChar b).toNat ∧ (decodeChar b).toNat ≤ 126) ∨ decodeChar b = '.' := by
  unfold decodeChar
  split
  · rename_i hb
    left
    rw [toNat_char_ofNat (by omega)]
    omega
  · right
    rfl

/-- Assigning a fresh key grows the dict by exactly one binding. -/
theorem length_dictInsert_not_hasKey (tags : Snapshot) (k : String) (v : Sample)
    (h : hasKey tags k = false) :
    (dictInsert tags k v).length = tags.length + 1 := by
  unfold dictInsert
  rw [if_neg (by simp [h])]
  simp

/-- Size of the decoded dict: with pairwise-fresh record tags, the loop adds
one binding per visited record, and it visits `min n ((len - offset) / 40)`
records. -/
theorem decodeLoop_length (data : Buffer) :
    ∀ (n offset : Nat) (tags : Snapshot),
      (recordTags data n offset).Nodup →
      (∀ t ∈ recordTags data n offset, hasKey tags t = false) →
      (decodeLoop data n offset tags).length =
        tags.length + min n ((data.length - offset) / 40) := by
  intro n
  induction n with
  | zero =>
    intro offset tags _ _
    simp [decodeLoop]
  | succ n ih =>
    intro offset tags hnd hacc
    by_cases hlen : data.length < offset + 40
    · rw [decodeLoop, if_pos hlen]
      have h0 : (data.length - offset) / 40 = 0 := Nat.div_eq_of_lt (by omega)
      simp [h0]
    · rw [decodeLoop, if_neg hlen]
      rw [recordTags, if_neg hlen] at hnd hacc
      have hnotin : decodeTag data offset ∉ recordTags data n (offset + 40) :=
        (List.nodup_cons.mp hnd).1
      have hrest : (recordTags data n (offset + 40)).Nodup := (List.nodup_cons.mp hnd).2
      have hkey : hasKey tags (decodeTag data offset) = false :=
        hacc _ (List.mem_cons_self _ _)
      have hacc2 : ∀ t ∈ recordTags data n (offset + 40),
          hasKey (dictInsert tags (decodeTag data offset) (decodeSample data offset)) t
            = false := by
        intro t ht
        rw [hasKey_dictInsert]
        have h1 : hasKey tags t = false := hacc t (List.mem_cons_of_mem _ ht)
        have h2 : (decodeTag data offset == t) = false := by
          simp only [beq_eq_false_iff_ne]
          intro he
          exact hnotin (he ▸ ht)
        simp [h1, h2]
      rw [ih (offset + 40) _ hrest hacc2,
        length_dictInsert_not_hasKey _ _ _ hkey]
      have hdiv : (data.length - offset) / 40 = (data.length - (offset + 40)) / 40 + 1 := by
        rw [← Nat.sub_sub]
        rw [Nat.div_eq_sub_div (by norm_num) (by omega)]
      omega

/-- A tag absent from the baseline is compared against the zero record. -/
theorem growerEntry_absent (baseline : Snapshot) (p : String × Sample)
    (h : dictGet baseline p.1 = none) :
    growerEntry baseline p =
      if (102400 : Int) < (p.2.paged : Int) + p.2.nonpaged then
        some ⟨p.1, p.2.paged, p.2.nonpaged, (p.2.paged : Int) + p.2.nonpaged,
          p.2.paged + p.2.nonpaged⟩
      else none := by
  simp only [growerEntry, h, Option.getD_none, zeroSample, min_delta_kb]
  norm_num

/-- A produced grower keeps the entry's tag and passed the strict threshold. -/
theorem growerEntry_mem (baseline : Snapshot) (p : String × Sample) (g : Grower)
    (h : growerEntry baseline p = some g) :
    g.tag = p.1 ∧ (102400 : Int) < g.d_total := by
  simp only [growerEntry] at h
  split at h
  · rename_i hc
    cases h
    refine ⟨rfl, ?_⟩
    have he : (min_delta_kb : Int) * 1024 = 102400 := by norm_num [min_delta_kb]
    rw [he] at hc
    exact hc
  · cases h

/-- C1 (amended): for a buffer of length at least 8 whose visited records
carry pairwise-distinct tags, decoding succeeds and the snapshot has exactly
`min n ((length - 8) / 40)` entries, where `n` is the 4-byte little-endian
header count: decoding starts at offset 8, consumes 40-byte records, and
stops early without failing when fewer than 40 bytes remain.  (Duplicate tags
collapse by last-write-wins, so the unrestricted count claim fails; see the
counterexample.) -/
theorem decode_entry_count (data : Buffer) (h8 : 8 ≤ data.length)
    (hnd : (recordTags data (readLE data 0 4) 8).Nodup) :
    ∃ snap, decodeBuffer data = some snap ∧
      snap.length = min (readLE data 0 4) ((data.length - 8) / 40) := by
  refine ⟨decodeLoop data (readLE data 0 4) 8 [], ?_, ?_⟩
  · unfold decodeBuffer
    rw [if_neg (by omega)]
  · have h := decodeLoop_length data (readLE data 0 4) 8 [] hnd (by intro t _; rfl)
    simpa using h

/-- C1 witness: a buffer declaring 3 records but holding 2 decodes to a
2-entry snapshot. -/
theorem decode_entry_count_witness :
    8 ≤ wbufC1.length ∧ (recordTags wbufC1 (readLE wbufC1 0 4) 8).Nodup ∧
      ∃ snap, decodeBuffer wbufC1 = some snap ∧
        snap.length = min (readLE wbufC1 0 4) ((wbufC1.length - 8) / 40) :=
  ⟨by decide, by decide, decode_entry_count wbufC1 (by decide) (by decide)⟩

/-- C1 counterexample: a valid buffer declaring 2 records whose tags coincide
decodes to a 1-entry snapshot, not the `min(2, 2) = 2` entries the claim
demands. -/
theorem decode_entry_count_cex :
    (decodeBuffer dupBuf).map List.length = some 1 ∧
    min (readLE dupBuf 0 4) ((dupBuf.length - 8) / 40) = 2 ∧
    (decodeBuffer dupBuf).map List.length ≠
      some (min (readLE dupBuf 0 4) ((dupBuf.length - 8) / 40)) :=
  ⟨by decide, by decide, by decide⟩

/-- C2: for every in-bounds 40-byte record, the decoded fields read the
claimed offsets little-endian: tag bytes 0–3 mapped byte-by-byte to ASCII on
`[32,126]` and to a dot otherwise; paged outstanding is the u32 at bytes 4–7
minus the u32 at bytes 8–11; paged bytes used is the u64 at bytes 16–23;
nonpaged outstanding is the u32 at bytes 24–27 minus the u32 at bytes 28–31;
nonpaged bytes used is the u64 at bytes 32–39. -/
theorem record_field_layout (data : Buffer) (offset : Nat) (h : offset + 40 ≤ data.length) :
    (decodeTag data offset).data =
      ([data.getD offset 0, data.getD (offset + 1) 0, data.getD (offset + 2) 0,
        data.getD (offset + 3) 0].map fun b =>
          if 32 ≤ b ∧ b ≤ 126 then Char.ofNat b else '.') ∧
    (decodeSample data offset).paged =
      data.getD (offset + 16) 0 + data.getD (offset + 17) 0 * 256 +
      data.getD (offset + 18) 0 * 256 ^ 2 + data.getD (offset + 19) 0 * 256 ^ 3 +
      data.getD (offset + 20) 0 * 256 ^ 4 + data.getD (offset + 21) 0 * 256 ^ 5 +
      data.getD (offset + 22) 0 * 256 ^ 6 + data.getD (offset + 23) 0 * 256 ^ 7 ∧
    (decodeSample data offset).p_out =
      ((data.getD (offset + 4) 0 + data.getD (offset + 5) 0 * 256 +
        data.getD (offset + 6) 0 * 256 ^ 2 + data.getD (offset + 7) 0 * 256 ^ 3 : Nat) : Int) -
      ((data.getD (offset + 8) 0 + data.getD (offset + 9) 0 * 256 +
        data.getD (offset + 10) 0 * 256 ^ 2 + data.getD (offset + 11) 0 * 256 ^ 3 : Nat) : Int) ∧
    (decodeSample data offset).np_out =
      ((data.getD (offset + 24) 0 + data.getD (offset + 25) 0 * 256 +
        data.getD (offset + 26) 0 * 256 ^ 2 + data.getD (offset + 27) 0 * 256 ^ 3 : Nat) : Int) -
      ((data.getD (offset + 28) 0 + data.getD (offset + 29) 0 * 256 +
        data.getD (offset + 30) 0 * 256 ^ 2 + data.getD (offset + 31) 0 * 256 ^ 3 : Nat) : Int) ∧
    (decodeSample data offset).nonpaged =
      data.getD (offset + 32) 0 + data.getD (offset + 33) 0 * 256 +
      data.getD (offset + 34) 0 * 256 ^ 2 + data.getD (offset + 35) 0 * 256 ^ 3 +
      data.getD (offset + 36) 0 * 256 ^ 4 + data.getD (offset + 37) 0 * 256 ^ 5 +
      data.getD (offset + 38) 0 * 256 ^ 6 + data.getD (offset + 39) 0 * 256 ^ 7 := by
  refine ⟨?_, ?_, ?_, ?_, ?_⟩
  · rw [decodeTag, drop_take_four data offset (by omega)]
    simp only [String.mk]
    simp [decodeChar, Nat.lt_succ_iff]
  · simp [decodeSample, readLE]; ring
  · simp [decodeSample, readLE]; ring
  · simp [decodeSample, readLE]; ring
  · simp [decodeSample, readLE]; ring

/-- C2 witness: the layout theorem applied to the record at offset 8 of a
concrete 48-byte buffer. -/
theorem record_field_layout_witness :
    8 + 40 ≤ negBuf.length ∧
    ((decodeTag negBuf 8).data =
      ([negBuf.getD 8 0, negBuf.getD 9 0, negBuf.getD 10 0,
        negBuf.getD 11 0].map fun b =>
          if 32 ≤ b ∧ b ≤ 126 then Char.ofNat b else '.') ∧
    (decodeSample negBuf 8).paged =
      negBuf.getD 24 0 + negBuf.getD 25 0 * 256 +
      negBuf.getD 26 0 * 256 ^ 2 + negBuf.getD 27 0 * 256 ^ 3 +
      negBuf.getD 28 0 * 256 ^ 4 + negBuf.getD 29 0 * 256 ^ 5 +
      negBuf.getD 30 0 * 256 ^ 6 + negBuf.getD 31 0 * 256 ^ 7 ∧
    (decodeSample negBuf 8).p_out =
      ((negBuf.getD 12 0 + negBuf.getD 13 0 * 256 +
        negBuf.getD 14 0 * 256 ^ 2 + negBuf.getD 15 0 * 256 ^ 3 : Nat) : Int) -
      ((negBuf.getD 16 0 + negBuf.getD 17 0 * 256 +
        negBuf.getD 18 0 * 256 ^ 2 + negBuf.getD 19 0 * 256 ^ 3 : Nat) : Int) ∧
    (decodeSample negBuf 8).np_out =
      ((negBuf.getD 32 0 + negBuf.getD 33 0 * 256 +
        negBuf.getD 34 0 * 256 ^ 2 + negBuf.getD 35 0 * 256 ^ 3 : Nat) : Int) -
      ((negBuf.getD 36 0 + negBuf.getD 37 0 * 256 +
        negBuf.getD 38 0 * 256 ^ 2 + negBuf.getD 39 0 * 256 ^ 3 : Nat) : Int) ∧
    (decodeSample negBuf 8).nonpaged =
      negBuf.getD 40 0 + negBuf.getD 41 0 * 256 +
      negBuf.getD 42 0 * 256 ^ 2 + negBuf.getD 43 0 * 256 ^ 3 +
      negBuf.getD 44 0 * 256 ^ 4 + negBuf.getD 45 0 * 256 ^ 5 +
      negBuf.getD 46 0 * 256 ^ 6 + negBuf.getD 47 0 * 256 ^ 7) :=
  ⟨by decide, record_field_layout negBuf 8 (by decide)⟩

/-- C3 (amended): every grower passed the strict 102400-byte threshold, and
the returned sequence is sorted descending by `d_total`; on ties the stable
sort keeps the current snapshot's iteration order, not tag-name ascending
order (see the counterexample). -/
theorem growth_threshold_sorted (baseline current : Snapshot) :
    (∀ g ∈ computeGrowers baseline current, (102400 : Int) < g.d_total) ∧
    (computeGrowers baseline current).Pairwise fun a b => b.d_total ≤ a.d_total := by
  constructor
  · intro g hg
    rw [computeGrowers, List.mem_insertionSort, growersUnsorted, List.mem_filterMap] at hg
    obtain ⟨p, _, hpe⟩ := hg
    exact (growerEntry_mem baseline p g hpe).2
  · exact List.sorted_insertionSort gge _

/-- C3 witness: the threshold/sort theorem at a one-tag snapshot. -/
theorem growth_threshold_sorted_witness :
    (∀ g ∈ computeGrowers [] [("AAAA", bigSampleC3)], (102400 : Int) < g.d_total) ∧
    (computeGrowers [] [("AAAA", bigSampleC3)]).Pairwise fun a b => b.d_total ≤ a.d_total :=
  growth_threshold_sorted [] [("AAAA", bigSampleC3)]

/-- C3 counterexample: two tags with the identical delta 200000 come out in
insertion order `["BBBB", "AAAA"]`, not in the ascending tag order
`["AAAA", "BBBB"]` the claim's tie-break demands. -/
theorem growth_tie_order_cex :
    (∀ g ∈ computeGrowers [] tieCurrent, g.d_total = 200000) ∧
    (computeGrowers [] tieCurrent).map Grower.tag = ["BBBB", "AAAA"] ∧
    (computeGrowers [] tieCurrent).map Grower.tag ≠ ["AAAA", "BBBB"] :=
  ⟨by decide, by decide, by decide⟩

/-- C4: the growth computation considers exactly the tags of the current
snapshot: every grower's tag carries a binding in `current`; an entry whose
tag is absent from the baseline is compared against the zero record, so its
deltas equal its current values minus 0; and a tag without a binding in
`current` never produces a grower. -/
theorem growth_considers_current (baseline current : Snapshot) :
    (∀ g ∈ computeGrowers baseline current, ∃ s, (g.tag, s) ∈ current) ∧
    (∀ p : String × Sample, dictGet baseline p.1 = none →
      growerEntry baseline p =
        if (102400 : Int) < (p.2.paged : Int) + p.2.nonpaged then
          some ⟨p.1, p.2.paged, p.2.nonpaged, (p.2.paged : Int) + p.2.nonpaged,
            p.2.paged + p.2.nonpaged⟩
        else none) ∧
    (∀ t : String, hasKey current t = false →
      ∀ g ∈ computeGrowers baseline current, g.tag ≠ t) := by
  refine ⟨?_, ?_, ?_⟩
  · intro g hg
    rw [computeGrowers, List.mem_insertionSort, growersUnsorted, List.mem_filterMap] at hg
    obtain ⟨p, hp, hpe⟩ := hg
    have htag := (growerEntry_mem baseline p g hpe).1
    exact ⟨p.2, by rw [htag]; exact hp⟩
  · intro p hp
    exact growerEntry_absent baseline p hp
  · intro t ht g hg htg
    rw [computeGrowers, List.mem_insertionSort, growersUnsorted, List.mem_filterMap] at hg
    obtain ⟨p, hp, hpe⟩ := hg
    have htag := (growerEntry_mem baseline p g hpe).1
    have hk : hasKey current t = true := by
      unfold hasKey
      rw [List.any_eq_true]
      exact ⟨p, hp, by simp [← htag, htg]⟩
    rw [ht] at hk
    cases hk

/-- C4 witness: the theorem at a baseline and a current snapshot holding one
unrelated tag each. -/
theorem growth_considers_current_witness :
    (∀ g ∈ computeGrowers [("OLDT", bigSampleC4)] [("NEWT", bigSampleC4)],
      ∃ s, (g.tag, s) ∈ [("NEWT", bigSampleC4)]) ∧
    (∀ p : String × Sample, dictGet [("OLDT", bigSampleC4)] p.1 = none →
      growerEntry [("OLDT", bigSampleC4)] p =
        if (102400 : Int) < (p.2.paged : Int) + p.2.nonpaged then
          some ⟨p.1, p.2.paged, p.2.nonpaged, (p.2.paged : Int) + p.2.nonpaged,
            p.2.paged + p.2.nonpaged⟩
        else none) ∧
    (∀ t : String, hasKey [("NEWT", bigSampleC4)] t = false →
      ∀ g ∈ computeGrowers [("OLDT", bigSampleC4)] [("NEWT", bigSampleC4)], g.tag ≠ t) :=
  growth_considers_current [("OLDT", bigSampleC4)] [("NEWT", bigSampleC4)]

/-- C5: a non-zero OS status makes `get_pool_tags` return the empty snapshot
instead of failing, and such a round contributes an empty growers table while
the remaining scheduled rounds proceed unchanged. -/
theorem acquisition_failure_empty (status : Int) (data : Buffer) (baseline : Snapshot)
    (rest : List (Int × Buffer)) (h : status ≠ 0) :
    get_pool_tags status data = some [] ∧
    runSamples baseline ((status, data) :: rest) =
      (runSamples baseline rest).map fun l => [] :: l := by
  have h1 : get_pool_tags status data = some [] := by
    unfold get_pool_tags
    rw [if_pos h]
  refine ⟨h1, ?_⟩
  unfold runSamples
  rw [List.mapM_cons, h1]
  have h2 : computeGrowers baseline [] = [] := rfl
  cases hrem : rest.mapM fun r => (get_pool_tags r.1 r.2).map (computeGrowers baseline) <;>
    simp [h2, hrem]

/-- C5 witness: a run whose first round fails with status 1 still processes
the following round. -/
theorem acquisition_failure_empty_witness :
    (1 : Int) ≠ 0 ∧
    (get_pool_tags 1 [] = some [] ∧
      runSamples [] [((1 : Int), ([] : Buffer)), ((1 : Int), ([] : Buffer))] =
        (runSamples [] [((1 : Int), ([] : Buffer))]).map fun l => [] :: l) :=
  ⟨by decide, acquisition_failure_empty 1 [] [] [((1 : Int), ([] : Buffer))] (by decide)⟩

/-- C6 (amended): a buffer holding at least the 4-byte header but fewer than
48 bytes decodes to the empty snapshot without raising; a buffer shorter than
4 bytes instead makes the header read raise `struct.error` (see the
counterexample), so the claim's extension to sub-header buffers fails. -/
theorem short_buffer_empty (data : Buffer) (h4 : 4 ≤ data.length) (h48 : data.length < 48) :
    get_pool_tags 0 data = some [] := by
  unfold get_pool_tags
  rw [if_neg (by simp)]
  unfold decodeBuffer
  rw [if_neg (by omega)]
  cases hc : readLE data 0 4 with
  | zero => rfl
  | succ n => rw [decodeLoop, if_pos (by omega)]

/-- C6 witness: a 4-byte buffer decodes to the empty snapshot. -/
theorem short_buffer_empty_witness :
    4 ≤ ([9, 9, 9, 9] : Buffer).length ∧ ([9, 9, 9, 9] : Buffer).length < 48 ∧
      get_pool_tags 0 [9, 9, 9, 9] = some [] :=
  ⟨by decide, by decide, short_buffer_empty [9, 9, 9, 9] (by decide) (by decide)⟩

/-- C6 counterexample: the empty buffer is shorter than 48 bytes, yet decoding
raises (`none`) instead of returning a snapshot. -/
theorem short_buffer_cex :
    ([] : Buffer).length < 48 ∧ get_pool_tags 0 [] = none :=
  ⟨by decide, by decide⟩

/-- C7: the final-summary rate is `(d_total / 1024) / (elapsed / 60)` and the
daily extrapolation is `rate * 60 * 24 / 1024`; for 10485760 delta bytes over
600 seconds the rate is 1024 KB/min and the estimate 1440 MB/day, and the
suspects table carries exactly that rate. -/
theorem final_rate_extrapolation :
    rate_kb_per_min 10485760 600 = 1024 ∧
    est_mb_per_day (rate_kb_per_min 10485760 600) = 1440 ∧
    finalSuspects [] [("AAAA", ⟨10485760, 0, 0, 0⟩)] 600 =
      [⟨"AAAA", 10485760, rate_kb_per_min 10485760 600, 10485760⟩] := by
  refine ⟨?_, ?_, ?_⟩
  · norm_num [rate_kb_per_min]
  · norm_num [rate_kb_per_min, est_mb_per_day]
  · simp only [finalSuspects, List.filterMap, dictGet, zeroSample, min_delta_kb]
    norm_num [List.insertionSort, List.orderedInsert]

/-- C8 (amended): the paged and nonpaged byte totals of every decoded sample
are non-negative, and each outstanding field is the signed difference of the
allocation and free counters, non-negative whenever allocations are at least
frees — but negative when frees exceed allocations (see the
counterexample), so the claim's extension to the derived outstanding values
fails. -/
theorem decoded_sample_signs (data : Buffer) (offset : Nat) (snap : Snapshot)
    (_h : decodeBuffer data = some snap) :
    (∀ p ∈ snap, (0 : Int) ≤ p.2.paged ∧ (0 : Int) ≤ p.2.nonpaged) ∧
    (decodeSample data offset).p_out =
      (readLE data (offset + 4) 4 : Int) - readLE data (offset + 8) 4 ∧
    (readLE data (offset + 8) 4 ≤ readLE data (offset + 4) 4 →
      0 ≤ (decodeSample data offset).p_out) ∧
    (readLE data (offset + 28) 4 ≤ readLE data (offset + 24) 4 →
      0 ≤ (decodeSample data offset).np_out) := by
  refine ⟨?_, rfl, ?_, ?_⟩
  · intro p _
    exact ⟨Int.natCast_nonneg _, Int.natCast_nonneg _⟩
  · intro hle
    simp only [decodeSample, sub_nonneg]
    exact_mod_cast hle
  · intro hle
    simp only [decodeSample, sub_nonneg]
    exact_mod_cast hle

/-- C8 witness: the signs theorem at a 4-byte buffer that decodes to the
empty snapshot. -/
theorem decoded_sample_signs_witness :
    decodeBuffer [0, 0, 0, 0] = some [] ∧
    ((∀ p ∈ ([] : Snapshot), (0 : Int) ≤ p.2.paged ∧ (0 : Int) ≤ p.2.nonpaged) ∧
    (decodeSample [0, 0, 0, 0] 0).p_out =
      (readLE [0, 0, 0, 0] 4 4 : Int) - readLE [0, 0, 0, 0] 8 4 ∧
    (readLE [0, 0, 0, 0] 8 4 ≤ readLE [0, 0, 0, 0] 4 4 →
      0 ≤ (decodeSample [0, 0, 0, 0] 0).p_out) ∧
    (readLE [0, 0, 0, 0] 28 4 ≤ readLE [0, 0, 0, 0] 24 4 →
      0 ≤ (decodeSample [0, 0, 0, 0] 0).np_out)) :=
  ⟨by decide, decoded_sample_signs [0, 0, 0, 0] 0 [] (by decide)⟩

/-- C8 counterexample: a record with 0 paged allocations and 1 paged free
decodes to a stored `p_out` of −1, a negative numeric field. -/
theorem decoded_sample_signs_cex :
    decodeBuffer negBuf = some [("LEAK", ⟨0, 0, -1, 0⟩)] ∧
    Sample.p_out ⟨0, 0, -1, 0⟩ < 0 :=
  ⟨by decide, by decide⟩

/-- C9: every key of a snapshot returned by `get_pool_tags` is a 4-character
string each character of which is printable ASCII in `[32,126]` or a dot. -/
theorem snapshot_keys_shape (status : Int) (data : Buffer) (snap : Snapshot)
    (h : get_pool_tags status data = some snap) :
    ∀ p ∈ snap, p.1.length = 4 ∧
      ∀ c ∈ p.1.data, (32 ≤ c.toNat ∧ c.toNat ≤ 126) ∨ c = '.' := by
  unfold get_pool_tags at h
  split at h
  · cases h
    intro p hp
    cases hp
  · unfold decodeBuffer at h
    split at h
    · cases h
    · cases h
      refine decodeLoop_prop data
        (fun q => q.1.length = 4 ∧ ∀ c ∈ q.1.data, (32 ≤ c.toNat ∧ c.toNat ≤ 126) ∨ c = '.')
        ?_ _ 8 [] (by intro p hp; cases hp)
      intro offset hoff
      have h4 := drop_take_four data offset (by omega)
      constructor
      · show (decodeTag data offset).length = 4
        rw [decodeTag, h4]
        rfl
      · intro c hc
        rw [decodeTag, h4] at hc
        simp only [String.mk, List.map, List.mem_cons, List.not_mem_nil, or_false] at hc
        rcases hc with hc | hc | hc | hc <;> (subst hc; exact decodeChar_shape _)

/-- C9 witness: a record whose tag bytes sit on the printable boundaries
decodes to the key `"A. ~"`, which satisfies the shape property. -/
theorem snapshot_keys_shape_witness :
    get_pool_tags 0 wbufC9 = some [("A. ~", zeroSample)] ∧
    ∀ p ∈ ([("A. ~", zeroSample)] : Snapshot), p.1.length = 4 ∧
      ∀ c ∈ p.1.data, (32 ≤ c.toNat ∧ c.toNat ≤ 126) ∨ c = '.' :=
  ⟨by decide, snapshot_keys_shape 0 wbufC9 [("A. ~", zeroSample)] (by decide)⟩

/-- C10: against an empty baseline, every grower passed the strict threshold
and carries as `d_total` the full current total of its tag, and conversely
every current tag whose total strictly exceeds the threshold produces such a
grower. -/
theorem empty_baseline_growth (current : Snapshot) :
    (∀ g ∈ computeGrowers [] current,
      (102400 : Int) < g.d_total ∧
      ∃ p ∈ current, g.tag = p.1 ∧ g.d_total = (p.2.paged : Int) + p.2.nonpaged ∧
        g.total = p.2.paged + p.2.nonpaged) ∧
    (∀ p ∈ current, (102400 : Int) < (p.2.paged : Int) + p.2.nonpaged →
      ∃ g ∈ computeGrowers [] current, g.tag = p.1 ∧
        g.d_total = (p.2.paged : Int) + p.2.nonpaged) := by
  constructor
  · intro g hg
    rw [computeGrowers, List.mem_insertionSort, growersUnsorted, List.mem_filterMap] at hg
    obtain ⟨p, hp, hpe⟩ := hg
    rw [growerEntry_absent [] p rfl] at hpe
    split at hpe
    · rename_i hc
      cases hpe
      exact ⟨hc, p, hp, rfl, rfl, rfl⟩
    · cases hpe
  · intro p hp hc
    refine ⟨⟨p.1, p.2.paged, p.2.nonpaged, (p.2.paged : Int) + p.2.nonpaged,
      p.2.paged + p.2.nonpaged⟩, ?_, rfl, rfl⟩
    rw [computeGrowers, List.mem_insertionSort, growersUnsorted, List.mem_filterMap]
    refine ⟨p, hp, ?_⟩
    rw [growerEntry_absent [] p rfl, if_pos hc]

/-- C10 witness: the theorem at a one-tag current snapshot whose 150000-byte
total exceeds the threshold. -/
theorem empty_baseline_growth_witness :
    (∀ g ∈ computeGrowers [] [("AAAA", bigSampleC10)],
      (102400 : Int) < g.d_total ∧
      ∃ p ∈ [("AAAA", bigSampleC10)], g.tag = p.1 ∧
        g.d_total = (p.2.paged : Int) + p.2.nonpaged ∧
        g.total = p.2.paged + p.2.nonpaged) ∧
    (∀ p ∈ [("AAAA", bigSampleC10)], (102400 : Int) < (p.2.paged : Int) + p.2.nonpaged →
      ∃ g ∈ computeGrowers [] [("AAAA", bigSampleC10)], g.tag = p.1 ∧
        g.d_total = (p.2.paged : Int) + p.2.nonpaged) :=
  empty_baseline_growth [("AAAA", bigSampleC10)]

end PoolTag
